import Mathlib

/-!
Verification of the e-commerce scraping program (`app/parse.py`,
`app/constants.py`).

Shallow embedding of the scraper: product containers and pages are structures
whose sub-element lookups are `Option`-valued (Selenium's `find_element` raises
`NoSuchElementException` when the element is absent), Python's `float`/`int`
text conversions are modelled as exact decimal parsers (a `float` value arising
from a decimal numeral is represented exactly as `mantissa * 10 ^ (-exp)`,
written `Dec`), `str.split()` is the whitespace tokenizer that drops empty
tokens, and the CSV writer follows the `csv` module's default dialect
(comma-delimited, minimal quoting with doubled quote characters, `\r\n` row
terminator).
-/

namespace Scrape

/-! ## Python numeric text conversions -/

/-- Value of one decimal digit character. -/
def digitVal (c : Char) : Nat := c.toNat - '0'.toNat

/-- Decimal digit characters. -/
def isDigitChar (c : Char) : Bool := '0' ≤ c ∧ c ≤ '9'

/-- Numeric value of a list of decimal digit characters (most significant first). -/
def digitsToNat (l : List Char) : Nat :=
  l.foldl (fun a c => a * 10 + digitVal c) 0

/-- Decimal digit characters of `n`, most significant first, with explicit
fuel (any `fuel > n` is enough). -/
def natToDigitsAux : Nat → Nat → List Char
  | 0, _ => []
  | fuel + 1, n =>
      if n < 10 then [Nat.digitChar n]
      else natToDigitsAux fuel (n / 10) ++ [Nat.digitChar (n % 10)]

/-- Decimal digit characters of `n`, most significant first
(the digit string Python's `str` prints for a non-negative integer). -/
def natToDigits (n : Nat) : List Char := natToDigitsAux (n + 1) n

/-- Python `str` of an `int`: optional minus sign followed by decimal digits. -/
def intStr (i : Int) : List Char :=
  if i < 0 then '-' :: natToDigits i.natAbs else natToDigits i.natAbs

/-- Python `int(s)` on a token: optional sign followed by at least one decimal
digit.  (Surrounding whitespace and digit-group underscores, which `int` also
accepts, never occur in the tokens this program feeds to `int` and are not
modelled.)  Returns `none` where `int` raises `ValueError`. -/
def pyInt (l : List Char) : Option Int :=
  match l with
  | [] => none
  | c :: rest =>
      if c = '-' then
        if rest ≠ [] ∧ rest.all isDigitChar
        then some (-(digitsToNat rest : Int)) else none
      else if c = '+' then
        if rest ≠ [] ∧ rest.all isDigitChar
        then some (digitsToNat rest : Int) else none
      else
        if (c :: rest).all isDigitChar
        then some (digitsToNat (c :: rest) : Int) else none

/-- An exact decimal number `m / 10 ^ e`: the value of a Python `float` obtained
from a decimal numeral (such values are always finite and exactly decimal). -/
structure Dec where
  m : Int
  e : Nat
deriving Repr, DecidableEq

/-- Rational value of a `Dec`. -/
def Dec.toRat (d : Dec) : ℚ := (d.m : ℚ) / (10 : ℚ) ^ d.e

/-- Python `float(s)` restricted to decimal numerals: optional sign, digits,
optionally a point with further digits, at least one digit in all.  (Exponent
forms, `inf`/`nan` and surrounding whitespace, which `float` also accepts,
never occur in this program's price texts and are not modelled.)  Returns
`none` where `float` raises `ValueError`. -/
def pyFloatCore (l : List Char) : Option Dec :=
  let intPart := l.takeWhile (fun c => c ≠ '.')
  match l.dropWhile (fun c => c ≠ '.') with
  | [] =>
      if intPart ≠ [] ∧ intPart.all isDigitChar
      then some ⟨(digitsToNat intPart : Int), 0⟩ else none
  | _ :: fracPart =>
      if ('.' ∉ fracPart) ∧ (intPart ≠ [] ∨ fracPart ≠ [])
          ∧ intPart.all isDigitChar ∧ fracPart.all isDigitChar
      then some ⟨(digitsToNat (intPart ++ fracPart) : Int), fracPart.length⟩
      else none

/-- Python `float(s)` with the optional leading sign handled. -/
def pyFloat (l : List Char) : Option Dec :=
  match l with
  | [] => pyFloatCore []
  | c :: rest =>
      if c = '-' then (pyFloatCore rest).map (fun d => ⟨-d.m, d.e⟩)
      else if c = '+' then pyFloatCore rest
      else pyFloatCore (c :: rest)

/-- The digit body of Python's `str` of a non-negative `float` value
`n / 10 ^ e`: the digits of `n` with a decimal point placed `e` digits from
the right (Python always prints at least one fractional digit for a float,
hence the `.0` when `e = 0`). -/
def decStrNat (n : Nat) (e : Nat) : List Char :=
  let digits := natToDigits n
  let digits := List.replicate (e + 1 - digits.length) '0' ++ digits
  digits.take (digits.length - e) ++ '.' ::
    (if e = 0 then ['0'] else digits.drop (digits.length - e))

/-- Python `str` of a `float` value. -/
def decStr (d : Dec) : List Char :=
  if d.m < 0 then '-' :: decStrNat d.m.natAbs d.e else decStrNat d.m.natAbs d.e

/-- A decimal numeral in the sense of the specification: decimal digits with
at most one decimal point and at least one digit. -/
def isDecNumeral (l : List Char) : Bool :=
  let intPart := l.takeWhile (fun c => c ≠ '.')
  match l.dropWhile (fun c => c ≠ '.') with
  | [] => intPart ≠ [] ∧ intPart.all isDigitChar
  | _ :: fracPart =>
      ('.' ∉ fracPart) ∧ (intPart ≠ [] ∨ fracPart ≠ [])
        ∧ intPart.all isDigitChar ∧ fracPart.all isDigitChar

/-- The rational number a decimal numeral denotes: its integer part plus its
fractional part scaled down by one power of ten per fractional digit. -/
def numeralValue (l : List Char) : ℚ :=
  let intPart := l.takeWhile (fun c => c ≠ '.')
  match l.dropWhile (fun c => c ≠ '.') with
  | [] => (digitsToNat intPart : ℚ)
  | _ :: fracPart =>
      (digitsToNat intPart : ℚ) + (digitsToNat fracPart : ℚ) / 10 ^ fracPart.length

/-- An integer numeral: an optional minus sign followed by decimal digits. -/
def intNumeral (l : List Char) : Bool :=
  match l with
  | [] => false
  | c :: rest =>
      if c = '-' then rest ≠ [] ∧ rest.all isDigitChar
      else (c :: rest).all isDigitChar

/-- The integer an integer numeral denotes. -/
def intNumeralValue (l : List Char) : Int :=
  match l with
  | [] => 0
  | c :: rest =>
      if c = '-' then -(digitsToNat rest : Int)
      else (digitsToNat (c :: rest) : Int)

/-! ## Python `str.split()` (whitespace tokenizing, empty tokens dropped) -/

/-- Auxiliary for `pySplit`: `cur` holds the characters of the token being
read, in reverse. -/
def pySplitAux (cur : List Char) : List Char → List (List Char)
  | [] => if cur = [] then [] else [cur.reverse]
  | c :: rest =>
      if c.isWhitespace then
        if cur = [] then pySplitAux [] rest
        else cur.reverse :: pySplitAux [] rest
      else pySplitAux (c :: cur) rest

/-- Python `s.split()` with no separator: split on runs of whitespace,
producing no empty tokens. -/
def pySplit (l : List Char) : List (List Char) := pySplitAux [] l

/-! ## The product container and the five field extractors
(`ElectronicProductParser.get_title` … `get_num_of_reviews`) -/

/-- A product container (an element with class `product-wrapper`): the
observations the five extractors make of it.  Each `find_element` sub-lookup is
`Option`-valued (`none` when `NoSuchElementException` would be raised);
`find_elements` for the `ws-icon-star` markers returns a list.  `titleAttr` is
the `title` attribute of the `.title` sub-element — a DOM property that exists
(possibly empty) on every HTML element, so it is a plain `String`. -/
structure Item where
  titleElem : Option String
  descriptionElem : Option String
  priceElem : Option String
  ratingElems : List Unit
  reviewElem : Option String

/-- The scraped record (`@dataclass Product`); `price` is the exact value of
the Python `float`, `rating` and `num_of_reviews` are Python `int`s. -/
structure Product where
  title : String
  description : String
  price : Dec
  rating : Int
  num_of_reviews : Int

/-- `get_title`: the `title` attribute of the `.title` sub-element. -/
def get_title (item : Item) : Option String := item.titleElem

/-- `get_description`: the text of the `.description` sub-element. -/
def get_description (item : Item) : Option String := item.descriptionElem

/-- `get_price`: `float(text[1:])` of the `.price` sub-element's text. -/
def get_price (item : Item) : Option Dec :=
  item.priceElem.bind (fun t => pyFloat (t.data.drop 1))

/-- `get_rating`: `len` of the `ws-icon-star` sub-elements. -/
def get_rating (item : Item) : Int := item.ratingElems.length

/-- `get_num_of_reviews`: `int(text.split()[0])` of the `.review-count`
sub-element's text; indexing `[0]` of an empty split result raises. -/
def get_num_of_reviews (item : Item) : Option Int :=
  item.reviewElem.bind (fun t => (pySplit t.data).head?.bind pyInt)

/-- The body of `parse_page`'s per-item loop: build a `Product` from the five
extractors, failing if any of them raises. -/
def extract_product (item : Item) : Option Product := do
  let title ← get_title item
  let description ← get_description item
  let price ← get_price item
  let rating := get_rating item
  let num_of_reviews ← get_num_of_reviews item
  pure ⟨title, description, price, rating, num_of_reviews⟩

/-! ## The serializer (`create_csv_file`), modelled as the written file content

Python's `csv.writer` with the default dialect: fields are comma-delimited; a
field is quoted exactly when it contains a delimiter, a quote character, or a
CR/LF, with quote characters doubled inside quotes; each row ends in `\r\n`.
Non-string cells are converted with `str` first. -/

/-- Does the default CSV dialect quote this field? -/
def needsQuoting (l : List Char) : Bool :=
  l.any (fun c => c = ',' ∨ c = '"' ∨ c = '\r' ∨ c = '\n')

/-- Double every quote character (the content of a quoted field). -/
def escapeQuotes : List Char → List Char
  | [] => []
  | c :: rest =>
      if c = '"' then '"' :: '"' :: escapeQuotes rest
      else c :: escapeQuotes rest

/-- Render one field: quoted with doubled quotes if needed, verbatim otherwise. -/
def quoteField (l : List Char) : List Char :=
  if needsQuoting l then '"' :: (escapeQuotes l ++ ['"']) else l

/-- Render one row (without its `\r\n` terminator): fields joined by commas. -/
def renderRow : List (List Char) → List Char
  | [] => []
  | [cell] => quoteField cell
  | cell :: cells => quoteField cell ++ ',' :: renderRow cells

/-- The cells `create_csv_file` passes to `writer.writerow` for one product,
each converted to text the way `csv.writer` applies `str`. -/
def productCells (p : Product) : List (List Char) :=
  [p.title.data, p.description.data, decStr p.price, intStr p.rating,
    intStr p.num_of_reviews]

/-- The header row's cells. -/
def headerCells : List (List Char) :=
  [['t','i','t','l','e'],
   ['d','e','s','c','r','i','p','t','i','o','n'],
   ['p','r','i','c','e'],
   ['r','a','t','i','n','g'],
   ['n','u','m','_','o','f','_','r','e','v','i','e','w','s']]

/-- All rows `create_csv_file` writes, in order: the header, then one row per
product. -/
def csvRows (products : List Product) : List (List Char) :=
  renderRow headerCells :: products.map (fun p => renderRow (productCells p))

/-- `create_csv_file`: the full content of the (truncated, newly written)
output file. -/
def create_csv_file (products : List Product) : String :=
  ⟨(csvRows products).flatMap (fun r => r ++ ['\r', '\n'])⟩

/-! ## A CSV row reader, to state the round-trip property -/

/-- Split a row at its top-level commas, tracking whether the scanner is
inside a quoted region; `cur` holds the current field's characters reversed,
quotes included. -/
def splitTopAux (inQ : Bool) (cur : List Char) : List Char → List (List Char)
  | [] => [cur.reverse]
  | c :: rest =>
      if c = ',' ∧ inQ = false then cur.reverse :: splitTopAux false [] rest
      else if c = '"' then splitTopAux (!inQ) (c :: cur) rest
      else splitTopAux inQ (c :: cur) rest

/-- Split a row at the commas that are outside quotes. -/
def splitTop (l : List Char) : List (List Char) := splitTopAux false [] l

/-- Undo quote doubling inside a quoted field, expecting the closing quote at
the very end; `none` on a malformed field. -/
def unescapeQuoted : List Char → Option (List Char)
  | [] => none
  | c :: rest =>
      if c = '"' then
        match rest with
        | [] => some []
        | c2 :: rest2 =>
            if c2 = '"' then (unescapeQuoted rest2).map (fun l => '"' :: l)
            else none
      else (unescapeQuoted rest).map (fun l => c :: l)

/-- Read one field back: strip and un-double quotes if it starts with one. -/
def unquoteField (l : List Char) : Option (List Char) :=
  if l.head? = some '"' then unescapeQuoted l.tail else some l

/-- Parse one row (without its terminator) back into its fields. -/
def parseRow (l : List Char) : Option (List (List Char)) :=
  (splitTop l).mapM unquoteField

/-! ## The session: consent handler, pager, `parse_page`, orchestrator -/

/-- Observable consent actions of `check_accept_cookies`. -/
inductive Event where
  | consentLookup
  | consentClick
deriving DecidableEq, Repr

/-- Errors that propagate out of `parse_page` (navigation/driver failures and
`NoSuchElementException` on a required field).  `fuelExhausted` marks the
model's fuel running out where the source's pagination loop would still be
running. -/
inductive PErr where
  | nav
  | noSuchElement
  | fuelExhausted
deriving DecidableEq, Repr

/-- The mutable state of an `ElectronicProductParser` instance. -/
structure PState where
  cookies_accepted : Bool
deriving DecidableEq, Repr

/-- A loaded page, as the parser observes it: whether an `acceptCookies`
element is present, the `ecomerce-items-scroll-more` control's state as a
function of how many clicks it has received (`none` = not found, `some v` =
found with `is_displayed() = v`), and the `product-wrapper` containers. -/
structure Page where
  consent : Bool
  button : Nat → Option Bool
  items : List Item

/-- `check_accept_cookies`: look the consent element up; click it when found,
print and continue when not; set the flag in either case. -/
def check_accept_cookies (consentPresent : Bool) (_s : PState) :
    PState × List Event :=
  (⟨true⟩,
    Event.consentLookup :: if consentPresent then [Event.consentClick] else [])

/-- `handle_pagination`'s loop, with fuel: `k` counts the clicks made so far.
Each iteration looks the control up; when found and displayed it is clicked
and the loop repeats, otherwise the loop breaks.  Returns the number of
lookups performed, or `none` when the fuel runs out first. -/
def handle_pagination (button : Nat → Option Bool) :
    Nat → Nat → Option Nat
  | 0, _ => none
  | fuel + 1, k =>
      match button k with
      | some true => (handle_pagination button fuel (k + 1)).map (· + 1)
      | some false => some 1
      | none => some 1

/-- The products `parse_page` extracts from a loaded page after the pager has
run: an error if the pager's fuel runs out or any required field lookup
raises, the record list otherwise. -/
def page_result (page : Page) (fuel : Nat) : Except PErr (List Product) :=
  match handle_pagination page.button fuel 0 with
  | none => .error .fuelExhausted
  | some _ =>
      match page.items.mapM extract_product with
      | none => .error .noSuchElement
      | some ps => .ok ps

/-- `parse_page`: navigate (`driver.get`), run the consent handler unless the
flag is already set, run the pager, extract every product container, and
return the records (the CSV write is `create_csv_file` of the result).  The
returned event list records the consent actions this call performed. -/
def parse_page (env : String → Except PErr Page) (fuel : Nat) (url : String)
    (s : PState) : PState × List Event × Except PErr (List Product) :=
  match env url with
  | .error e => (s, [], .error e)
  | .ok page =>
      let (s', evs) :=
        if s.cookies_accepted then (s, []) else check_accept_cookies page.consent s
      (s', evs, page_result page fuel)

/-- A sequence of `parse_page` calls on one parser instance, collecting each
call's consent events. -/
def runPages (env : String → Except PErr Page) (fuel : Nat) (s : PState) :
    List String → PState × List (List Event)
  | [] => (s, [])
  | url :: urls =>
      let (s', evs, _) := parse_page env fuel url s
      let (s'', evss) := runPages env fuel s' urls
      (s'', evs :: evss)

/-! ### Constants (`app/constants.py`) -/

/-- `urllib.parse.urljoin`, for the relative-path joins this program makes:
append to a base ending in `/`, otherwise replace the base's last segment. -/
def urljoin (base rel : String) : String :=
  if base.endsWith "/" then base ++ rel
  else ⟨(base.data.reverse.dropWhile (fun c => c ≠ '/')).reverse ++ rel.data⟩

def BASE_URL : String := "https://webscraper.io/"
def HOME_URL : String := urljoin BASE_URL "test-sites/e-commerce/more/"
def COMPUTERS_URL : String := urljoin HOME_URL "computers"
def LAPTOPS_URL : String := urljoin HOME_URL "computers/laptops"
def TABLETS_URL : String := urljoin HOME_URL "computers/tablets"
def PHONES_URL : String := urljoin HOME_URL "phones"
def TOUCH_URL : String := urljoin HOME_URL "phones/touch"

/-- The six fixed (label, URL, output file) triples of `get_all_products`,
in source order. -/
def categories : List (String × String × String) :=
  [("Home products", HOME_URL, "home.csv"),
   ("Computer products", COMPUTERS_URL, "computers.csv"),
   ("Laptop products", LAPTOPS_URL, "laptops.csv"),
   ("Tablet products", TABLETS_URL, "tablets.csv"),
   ("Phone products", PHONES_URL, "phones.csv"),
   ("Touch products", TOUCH_URL, "touch.csv")]

/-- The orchestrator's loop body over a triple list: process each triple in
order with the shared parser state; an error aborts the remaining triples and
propagates.  The first component lists the URLs actually navigated to. -/
def run_categories (env : String → Except PErr Page) (fuel : Nat)
    (s : PState) : List (String × String × String) →
    List String × Except PErr (List (List Product))
  | [] => ([], .ok [])
  | (_, url, _) :: rest =>
      let (s', _, r) := parse_page env fuel url s
      match r with
      | .error e => ([url], .error e)
      | .ok ps =>
          let (tr, r') := run_categories env fuel s' rest
          (url :: tr, r'.map (fun l => ps :: l))

/-- `get_all_products`: run the six fixed categories on a fresh parser
(`cookies_accepted = False`). -/
def get_all_products (env : String → Except PErr Page) (fuel : Nat) :
    List String × Except PErr (List (List Product)) :=
  run_categories env fuel ⟨false⟩ categories

/-- The parser state after a sequence of triples has been processed. -/
def advanceState (env : String → Except PErr Page) (fuel : Nat)
    (s : PState) (ts : List (String × String × String)) : PState :=
  ts.foldl (fun s t => (parse_page env fuel t.2.1 s).1) s

/-! ## Lemmas: decimal digits and Python numeric round-trips -/

theorem isDigitChar_digitChar {n : Nat} (h : n < 10) :
    isDigitChar n.digitChar = true := by
  interval_cases n <;> decide

theorem digitVal_digitChar {n : Nat} (h : n < 10) :
    digitVal n.digitChar = n := by
  interval_cases n <;> decide

theorem foldl_digitsToNat (l : List Char) (a : Nat) :
    l.foldl (fun a c => a * 10 + digitVal c) a
      = a * 10 ^ l.length + digitsToNat l := by
  induction l generalizing a with
  | nil => simp [digitsToNat]
  | cons c l ih =>
      show List.foldl _ (a * 10 + digitVal c) l = _
      rw [ih]
      have : digitsToNat (c :: l) = digitVal c * 10 ^ l.length + digitsToNat l := by
        show List.foldl _ (0 * 10 + digitVal c) l = _
        rw [ih]; ring_nf
      rw [this, List.length_cons]; ring

theorem digitsToNat_append (l₁ l₂ : List Char) :
    digitsToNat (l₁ ++ l₂) = digitsToNat l₁ * 10 ^ l₂.length + digitsToNat l₂ := by
  show List.foldl _ 0 (l₁ ++ l₂) = _
  rw [List.foldl_append]
  show List.foldl _ (digitsToNat l₁) l₂ = _
  rw [foldl_digitsToNat]

theorem natToDigitsAux_ne_nil {fuel n : Nat} (h : n < fuel) :
    natToDigitsAux fuel n ≠ [] := by
  induction fuel generalizing n with
  | zero => omega
  | succ fuel _ =>
      by_cases h10 : n < 10 <;> simp [natToDigitsAux, h10]

theorem natToDigitsAux_all_digits {fuel n : Nat} (h : n < fuel) :
    (natToDigitsAux fuel n).all isDigitChar = true := by
  induction fuel generalizing n with
  | zero => omega
  | succ fuel ih =>
      by_cases h10 : n < 10
      · simp [natToDigitsAux, h10, isDigitChar_digitChar h10]
      · have hdiv : n / 10 < fuel := by omega
        simp [natToDigitsAux, h10, ih hdiv,
          isDigitChar_digitChar (Nat.mod_lt n (by omega))]

theorem digitsToNat_natToDigitsAux {fuel n : Nat} (h : n < fuel) :
    digitsToNat (natToDigitsAux fuel n) = n := by
  induction fuel generalizing n with
  | zero => omega
  | succ fuel ih =>
      by_cases h10 : n < 10
      · simp [natToDigitsAux, h10, digitsToNat, digitVal_digitChar h10]
      · have hdiv : n / 10 < fuel := by omega
        rw [natToDigitsAux]
        simp only [h10, if_false]
        rw [digitsToNat_append, ih hdiv]
        have hm : n % 10 < 10 := Nat.mod_lt n (by omega)
        simp [digitsToNat, digitVal_digitChar hm]
        omega

theorem natToDigits_ne_nil (n : Nat) : natToDigits n ≠ [] :=
  natToDigitsAux_ne_nil (Nat.lt_succ_self n)

theorem natToDigits_all_digits (n : Nat) :
    (natToDigits n).all isDigitChar = true :=
  natToDigitsAux_all_digits (Nat.lt_succ_self n)

theorem digitsToNat_natToDigits (n : Nat) :
    digitsToNat (natToDigits n) = n :=
  digitsToNat_natToDigitsAux (Nat.lt_succ_self n)

theorem isDigitChar_ne {c : Char} (h : isDigitChar c = true) :
    c ≠ '-' ∧ c ≠ '+' ∧ c ≠ '.' ∧ c ≠ '"' ∧ c ≠ ',' := by
  refine ⟨?_, ?_, ?_, ?_, ?_⟩ <;> (rintro rfl; exact absurd h (by decide))

theorem pyInt_digits {l : List Char} (hne : l ≠ [])
    (hd : l.all isDigitChar = true) :
    pyInt l = some (digitsToNat l : Int) := by
  match l with
  | [] => exact absurd rfl hne
  | c :: rest =>
      have hc : isDigitChar c = true := by
        simp [List.all_cons] at hd; exact hd.1
      obtain ⟨h1, h2, -⟩ := isDigitChar_ne hc
      simp [pyInt, h1, h2, hd]

theorem pyInt_intStr (i : Int) : pyInt (intStr i) = some i := by
  by_cases h : i < 0
  · have hne : (natToDigits i.natAbs) ≠ [] := natToDigits_ne_nil _
    rw [intStr, if_pos h]
    show pyInt ('-' :: natToDigits i.natAbs) = some i
    rw [pyInt]
    simp only [if_pos rfl, hne, ne_eq, not_false_iff, true_and,
      natToDigits_all_digits, if_pos, digitsToNat_natToDigits]
    have : -((i.natAbs : Nat) : Int) = i := by omega
    rw [this]
  · rw [intStr, if_neg h,
      pyInt_digits (natToDigits_ne_nil _) (natToDigits_all_digits _),
      digitsToNat_natToDigits]
    have : ((i.natAbs : Nat) : Int) = i := by omega
    rw [this]

theorem digitsToNat_replicate_zero (k : Nat) (l : List Char) :
    digitsToNat (List.replicate k '0' ++ l) = digitsToNat l := by
  rw [digitsToNat_append]
  have : digitsToNat (List.replicate k '0') = 0 := by
    induction k with
    | zero => rfl
    | succ k ih =>
        rw [List.replicate_succ]
        show List.foldl _ (0 * 10 + digitVal '0') _ = 0
        have : (0 : Nat) * 10 + digitVal '0' = 0 := by decide
        rw [this]; exact ih
  rw [this]; ring

/-! ## Lemmas: the decimal parser `pyFloat` -/

theorem not_dot_mem_of_digits {l : List Char} (h : l.all isDigitChar = true) :
    '.' ∉ l := by
  intro hmem
  have := List.all_eq_true.mp h _ hmem
  exact absurd this (by decide)

theorem takeWhile_no_dot {l : List Char} (h : '.' ∉ l) :
    l.takeWhile (fun c => c ≠ '.') = l := by
  induction l with
  | nil => rfl
  | cons c l ih =>
      simp only [List.mem_cons, not_or] at h
      rw [List.takeWhile_cons, if_pos (by simpa using Ne.symm h.1), ih h.2]

theorem dropWhile_no_dot {l : List Char} (h : '.' ∉ l) :
    l.dropWhile (fun c => c ≠ '.') = [] := by
  induction l with
  | nil => rfl
  | cons c l ih =>
      simp only [List.mem_cons, not_or] at h
      rw [List.dropWhile_cons, if_pos (by simpa using Ne.symm h.1), ih h.2]

theorem takeWhile_append_dot {d1 : List Char} (d2 : List Char) (h : '.' ∉ d1) :
    (d1 ++ '.' :: d2).takeWhile (fun c => c ≠ '.') = d1 := by
  induction d1 with
  | nil =>
      rw [List.nil_append, List.takeWhile_cons, if_neg (by simp)]
  | cons c d1 ih =>
      simp only [List.mem_cons, not_or] at h
      rw [List.cons_append, List.takeWhile_cons,
        if_pos (by simpa using Ne.symm h.1), ih h.2]

theorem dropWhile_append_dot {d1 : List Char} (d2 : List Char) (h : '.' ∉ d1) :
    (d1 ++ '.' :: d2).dropWhile (fun c => c ≠ '.') = '.' :: d2 := by
  induction d1 with
  | nil =>
      rw [List.nil_append, List.dropWhile_cons, if_neg (by simp)]
  | cons c d1 ih =>
      simp only [List.mem_cons, not_or] at h
      rw [List.cons_append, List.dropWhile_cons,
        if_pos (by simpa using Ne.symm h.1), ih h.2]

theorem pyFloatCore_digits {l : List Char} (hne : l ≠ [])
    (hd : l.all isDigitChar = true) :
    pyFloatCore l = some ⟨(digitsToNat l : Int), 0⟩ := by
  have hnd := not_dot_mem_of_digits hd
  rw [pyFloatCore]
  simp only [takeWhile_no_dot hnd, dropWhile_no_dot hnd]
  simp [hne, hd]

theorem pyFloatCore_point {d1 d2 : List Char} (h1 : d1.all isDigitChar = true)
    (h2 : d2.all isDigitChar = true) (hne : d1 ≠ [] ∨ d2 ≠ []) :
    pyFloatCore (d1 ++ '.' :: d2)
      = some ⟨(digitsToNat (d1 ++ d2) : Int), d2.length⟩ := by
  have hnd1 := not_dot_mem_of_digits h1
  have hnd2 := not_dot_mem_of_digits h2
  rw [pyFloatCore]
  simp only [takeWhile_append_dot d2 hnd1, dropWhile_append_dot d2 hnd1]
  simp [hnd2, hne, h1, h2]

theorem toRat_point (d1 d2 : List Char) :
    (Dec.toRat ⟨(digitsToNat (d1 ++ d2) : Int), d2.length⟩)
      = (digitsToNat d1 : ℚ) + (digitsToNat d2 : ℚ) / 10 ^ d2.length := by
  rw [Dec.toRat, digitsToNat_append]
  have h10 : ((10 : ℚ) ^ d2.length) ≠ 0 := by positivity
  push_cast
  field_simp

theorem dropWhile_dot_head : ∀ (l : List Char) (c0 : Char) (fp : List Char),
    l.dropWhile (fun c => c ≠ '.') = c0 :: fp → c0 = '.'
  | [], c0, fp => by intro h; exact absurd h (by simp)
  | c :: l, c0, fp => by
      intro h
      by_cases hc : c = '.'
      · subst hc
        rw [List.dropWhile_cons, if_neg (by simp)] at h
        exact (List.cons.injEq .. ▸ h).1.symm
      · rw [List.dropWhile_cons, if_pos (by simpa using hc)] at h
        exact dropWhile_dot_head l c0 fp h

theorem dropWhile_dot_nil : ∀ l : List Char,
    l.dropWhile (fun c => c ≠ '.') = [] → '.' ∉ l
  | [] => by intro _ h; exact absurd h (by simp)
  | c :: l => by
      intro h hmem
      by_cases hc : c = '.'
      · subst hc
        rw [List.dropWhile_cons, if_neg (by simp)] at h
        exact List.noConfusion h
      · rw [List.dropWhile_cons, if_pos (by simpa using hc)] at h
        rcases List.mem_cons.mp hmem with h' | h'
        · exact hc h'.symm
        · exact dropWhile_dot_nil l h h'

theorem isDecNumeral_intPart_digits {l : List Char} (h : isDecNumeral l = true) :
    (l.takeWhile (fun c => c ≠ '.')).all isDigitChar = true := by
  rw [isDecNumeral] at h
  rcases hdw : l.dropWhile (fun c => c ≠ '.') with _ | ⟨c0, fp⟩ <;>
      rw [hdw] at h <;>
      simp only [Bool.decide_and, Bool.decide_coe, Bool.and_eq_true,
        decide_eq_true_eq] at h
  · exact h.2
  · exact h.2.2.1

theorem isDecNumeral_ne_nil {l : List Char} (h : isDecNumeral l = true) :
    l ≠ [] := by
  rintro rfl
  exact absurd h (by decide)

theorem pyFloat_eq_core_of_decNumeral {l : List Char}
    (h : isDecNumeral l = true) : pyFloat l = pyFloatCore l := by
  rcases hl : l with _ | ⟨c, rest⟩
  · rfl
  · subst hl
    have hc : c = '.' ∨ isDigitChar c = true := by
      by_cases hdot : c = '.'
      · exact Or.inl hdot
      · right
        have htw := isDecNumeral_intPart_digits h
        rw [List.takeWhile_cons, if_pos (by simpa using hdot),
          List.all_cons, Bool.and_eq_true] at htw
        exact htw.1
    have hm : c ≠ '-' ∧ c ≠ '+' := by
      rcases hc with rfl | hc
      · exact ⟨by decide, by decide⟩
      · obtain ⟨h1, h2, -⟩ := isDigitChar_ne hc
        exact ⟨h1, h2⟩
    simp [pyFloat, hm.1, hm.2]

theorem pyFloat_decNumeral {l : List Char} (h : isDecNumeral l = true) :
    ∃ d, pyFloat l = some d ∧ d.toRat = numeralValue l ∧ 0 ≤ d.m := by
  rw [pyFloat_eq_core_of_decNumeral h]
  rcases hdw : l.dropWhile (fun c => c ≠ '.') with _ | ⟨c0, fp⟩
  · -- no decimal point: the whole numeral is digits
    have hnd : '.' ∉ l := dropWhile_dot_nil l hdw
    have hall : l.all isDigitChar = true := by
      have := isDecNumeral_intPart_digits h
      rwa [takeWhile_no_dot hnd] at this
    refine ⟨⟨(digitsToNat l : Int), 0⟩,
      pyFloatCore_digits (isDecNumeral_ne_nil h) hall, ?_, by positivity⟩
    rw [numeralValue, hdw, takeWhile_no_dot hnd]
    simp [Dec.toRat]
  · -- a decimal point splits the numeral into its two digit parts
    have hc0 : c0 = '.' := dropWhile_dot_head l c0 fp hdw
    subst hc0
    have hsplit : l = l.takeWhile (fun c => c ≠ '.') ++ '.' :: fp := by
      conv_lhs => rw [← List.takeWhile_append_dropWhile
        (fun c : Char => decide (c ≠ '.')) l]
      rw [hdw]
    rw [isDecNumeral, hdw] at h
    simp only [Bool.decide_and, Bool.decide_coe, Bool.and_eq_true,
      decide_eq_true_eq] at h
    obtain ⟨-, hne, hip, hfp⟩ := h
    refine ⟨⟨(digitsToNat (l.takeWhile (fun c => c ≠ '.') ++ fp) : Int),
      fp.length⟩, ?_, ?_, by positivity⟩
    · conv_lhs => rw [hsplit]
      exact pyFloatCore_point hip hfp hne
    · rw [toRat_point, numeralValue, hdw]

/-! ## Lemmas: Python `str`/`float` round-trip for the serialized price -/

theorem all_digits_replicate_zero (k : Nat) :
    (List.replicate k '0').all isDigitChar = true := by
  rw [List.all_eq_true]
  intro c hc
  rw [List.eq_of_mem_replicate hc]
  decide

theorem pyFloat_cons_digit {c : Char} (hc : isDigitChar c = true)
    (t : List Char) : pyFloat (c :: t) = pyFloatCore (c :: t) := by
  obtain ⟨h1, h2, -⟩ := isDigitChar_ne hc
  simp [pyFloat, h1, h2]

theorem pyFloat_decStrNat (n e : Nat) :
    ∃ d, pyFloat (decStrNat n e) = some d
      ∧ pyFloatCore (decStrNat n e) = some d
      ∧ d.toRat = (n : ℚ) / 10 ^ e ∧ 0 ≤ d.m := by
  have hlen0 : 1 ≤ (natToDigits n).length :=
    List.length_pos.mpr (natToDigits_ne_nil n)
  by_cases he : e = 0
  · subst he
    have h1 : 0 + 1 - (natToDigits n).length = 0 := by omega
    have hd0 : decStrNat n 0 = natToDigits n ++ '.' :: ['0'] := by
      rw [decStrNat]; simp [h1]
    obtain ⟨c, t, hct⟩ : ∃ c t, natToDigits n = c :: t := by
      rcases hnd : natToDigits n with _ | ⟨c, t⟩
      · exact absurd hnd (natToDigits_ne_nil n)
      · exact ⟨c, t, rfl⟩
    have hc : isDigitChar c = true := by
      have := natToDigits_all_digits n
      rw [hct, List.all_cons, Bool.and_eq_true] at this
      exact this.1
    have hcore : pyFloatCore (decStrNat n 0)
        = some ⟨(digitsToNat (natToDigits n ++ ['0']) : Int), 1⟩ := by
      rw [hd0]
      exact pyFloatCore_point (natToDigits_all_digits n) (by decide)
        (Or.inl (natToDigits_ne_nil n))
    have hfloat : pyFloat (decStrNat n 0) = pyFloatCore (decStrNat n 0) := by
      rw [hd0, hct, List.cons_append]
      exact pyFloat_cons_digit hc _
    refine ⟨_, hfloat.trans hcore, hcore, ?_, by positivity⟩
    rw [Dec.toRat, digitsToNat_append, digitsToNat_natToDigits]
    have hz : digitsToNat ['0'] = 0 := by decide
    rw [hz]
    push_cast
    field_simp
  · -- `e ≥ 1`: the digit string is padded to at least `e + 1` digits
    have hd1 : decStrNat n e =
        (List.replicate (e + 1 - (natToDigits n).length) '0' ++ natToDigits n).take
          ((List.replicate (e + 1 - (natToDigits n).length) '0'
            ++ natToDigits n).length - e)
        ++ '.' :: (List.replicate (e + 1 - (natToDigits n).length) '0'
            ++ natToDigits n).drop
          ((List.replicate (e + 1 - (natToDigits n).length) '0'
            ++ natToDigits n).length - e) := by
      rw [decStrNat]
      simp only [if_neg he]
    generalize hD : List.replicate (e + 1 - (natToDigits n).length) '0'
      ++ natToDigits n = D at hd1
    have hall : D.all isDigitChar = true := by
      rw [← hD, List.all_append, Bool.and_eq_true]
      exact ⟨all_digits_replicate_zero _, natToDigits_all_digits n⟩
    have hlen : e + 1 ≤ D.length := by
      rw [← hD, List.length_append, List.length_replicate]
      omega
    have hdtn : digitsToNat D = n := by
      rw [← hD, digitsToNat_replicate_zero, digitsToNat_natToDigits]
    have hip : (D.take (D.length - e)).all isDigitChar = true := by
      rw [List.all_eq_true]
      intro c hc
      exact List.all_eq_true.mp hall c (List.take_subset _ _ hc)
    have hfp : (D.drop (D.length - e)).all isDigitChar = true := by
      rw [List.all_eq_true]
      intro c hc
      exact List.all_eq_true.mp hall c (List.drop_subset _ _ hc)
    have hiplen : (D.take (D.length - e)).length = D.length - e := by
      rw [List.length_take]
      omega
    have hipne : D.take (D.length - e) ≠ [] := by
      intro hnil
      rw [hnil] at hiplen
      simp at hiplen
      omega
    have hfplen : (D.drop (D.length - e)).length = e := by
      rw [List.length_drop]
      omega
    have hcore : pyFloatCore (decStrNat n e)
        = some ⟨(digitsToNat (D.take (D.length - e) ++ D.drop (D.length - e)) : Int),
            (D.drop (D.length - e)).length⟩ := by
      rw [hd1]
      exact pyFloatCore_point hip hfp (Or.inl hipne)
    obtain ⟨c, t, hct⟩ : ∃ c t, D.take (D.length - e) = c :: t := by
      rcases hnd : D.take (D.length - e) with _ | ⟨c, t⟩
      · exact absurd hnd hipne
      · exact ⟨c, t, rfl⟩
    have hc : isDigitChar c = true := by
      rw [hct, List.all_cons, Bool.and_eq_true] at hip
      exact hip.1
    have hfloat : pyFloat (decStrNat n e) = pyFloatCore (decStrNat n e) := by
      rw [hd1, hct, List.cons_append]
      exact pyFloat_cons_digit hc _
    refine ⟨_, hfloat.trans hcore, hcore, ?_, by positivity⟩
    rw [Dec.toRat, List.take_append_drop, hdtn, hfplen]
    push_cast
    ring

theorem pyFloat_decStr (d : Dec) :
    ∃ d', pyFloat (decStr d) = some d' ∧ d'.toRat = d.toRat := by
  obtain ⟨d0, hp, hpc, hv, hm⟩ := pyFloat_decStrNat d.m.natAbs d.e
  by_cases h : d.m < 0
  · refine ⟨⟨-d0.m, d0.e⟩, ?_, ?_⟩
    · rw [decStr, if_pos h]
      show pyFloat ('-' :: decStrNat d.m.natAbs d.e) = _
      rw [pyFloat]
      simp [hpc]
    · have h2 : ((d.m.natAbs : Nat) : Int) = -d.m := by omega
      have hcast : ((d.m.natAbs : Nat) : ℚ) = -((d.m : Int) : ℚ) :=
        calc ((d.m.natAbs : Nat) : ℚ)
            = (((d.m.natAbs : Nat) : Int) : ℚ) := (Int.cast_natCast _).symm
          _ = ((-d.m : Int) : ℚ) := by rw [h2]
          _ = -((d.m : Int) : ℚ) := by push_cast; ring
      have hfold : ((d0.m : Int) : ℚ) / 10 ^ d0.e = d0.toRat := rfl
      show ((-d0.m : Int) : ℚ) / 10 ^ d0.e = d.toRat
      push_cast
      rw [neg_div]
      rw [show ((d0.m : Int) : ℚ) / 10 ^ d0.e = d0.toRat from rfl, hv,
        hcast, Dec.toRat]
      ring
  · refine ⟨d0, ?_, ?_⟩
    · rw [decStr, if_neg h]
      exact hp
    · have h2 : ((d.m.natAbs : Nat) : Int) = d.m := by omega
      have hcast : ((d.m.natAbs : Nat) : ℚ) = ((d.m : Int) : ℚ) :=
        calc ((d.m.natAbs : Nat) : ℚ)
            = (((d.m.natAbs : Nat) : Int) : ℚ) := (Int.cast_natCast _).symm
          _ = ((d.m : Int) : ℚ) := by rw [h2]
      rw [hv, Dec.toRat, hcast]

/-! ## Lemmas: the CSV writer's rows parse back to their cells -/

theorem splitTopAux_comma (cur : List Char) (rest : List Char) :
    splitTopAux false cur (',' :: rest)
      = cur.reverse :: splitTopAux false [] rest := by
  rw [splitTopAux, if_pos ⟨rfl, rfl⟩]

theorem splitTopAux_quote (inQ : Bool) (cur : List Char) (rest : List Char) :
    splitTopAux inQ cur ('"' :: rest) = splitTopAux (!inQ) ('"' :: cur) rest := by
  rw [splitTopAux, if_neg (by simp), if_pos rfl]

theorem splitTopAux_other {c : Char} (inQ : Bool) (cur : List Char)
    (rest : List Char) (hne : ¬(c = ',' ∧ inQ = false)) (hq : c ≠ '"') :
    splitTopAux inQ cur (c :: rest) = splitTopAux inQ (c :: cur) rest := by
  rw [splitTopAux, if_neg hne, if_neg hq]

theorem splitTopAux_unquoted {f : List Char}
    (hf : ∀ c ∈ f, c ≠ ',' ∧ c ≠ '"') :
    ∀ cur rest, splitTopAux false cur (f ++ rest)
      = splitTopAux false (f.reverse ++ cur) rest := by
  induction f with
  | nil => intro cur rest; simp
  | cons c f ih =>
      intro cur rest
      have hc := hf c (List.mem_cons_self ..)
      rw [List.cons_append,
        splitTopAux_other false cur _ (fun h => hc.1 h.1) hc.2,
        ih (fun x hx => hf x (List.mem_cons_of_mem _ hx))]
      simp

theorem splitTopAux_escaped (x : List Char) :
    ∀ cur rest, splitTopAux true cur (escapeQuotes x ++ rest)
      = splitTopAux true ((escapeQuotes x).reverse ++ cur) rest := by
  induction x with
  | nil => intro cur rest; simp [escapeQuotes]
  | cons c x ih =>
      intro cur rest
      by_cases hc : c = '"'
      · subst hc
        have he : escapeQuotes ('"' :: x) = '"' :: '"' :: escapeQuotes x := by
          rw [escapeQuotes]; simp
        rw [he, List.cons_append, List.cons_append, splitTopAux_quote,
          splitTopAux_quote]
        simp only [Bool.not_true, Bool.not_false]
        rw [ih]
        simp [he]
      · have he : escapeQuotes (c :: x) = c :: escapeQuotes x := by
          rw [escapeQuotes]; simp [hc]
        rw [he, List.cons_append,
          splitTopAux_other true cur _ (by simp) hc, ih]
        simp

theorem needsQuoting_false_chars {l : List Char} (h : needsQuoting l = false) :
    ∀ c ∈ l, c ≠ ',' ∧ c ≠ '"' := by
  intro c hc
  rw [needsQuoting, List.any_eq_false] at h
  have := h c hc
  simp only [decide_eq_true_eq] at this
  push_neg at this
  exact ⟨this.1, this.2.1⟩

theorem splitTopAux_field (cell : List Char) :
    ∀ cur rest, splitTopAux false cur (quoteField cell ++ rest)
      = splitTopAux false ((quoteField cell).reverse ++ cur) rest := by
  intro cur rest
  by_cases hq : needsQuoting cell
  · rw [quoteField, if_pos hq]
    show splitTopAux false cur ('"' :: (escapeQuotes cell ++ ['"'] ++ rest)) = _
    rw [splitTopAux_quote]
    show splitTopAux true _ ((escapeQuotes cell ++ ['"']) ++ rest) = _
    rw [List.append_assoc, splitTopAux_escaped]
    show splitTopAux true _ ('"' :: rest) = _
    rw [splitTopAux_quote]
    simp [List.append_assoc]
  · rw [quoteField, if_neg hq]
    exact splitTopAux_unquoted
      (needsQuoting_false_chars (Bool.not_eq_true _ ▸ hq)) cur rest

theorem splitTop_renderRow (c : List Char) (cs : List (List Char)) :
    splitTop (renderRow (c :: cs)) = (c :: cs).map quoteField := by
  induction cs generalizing c with
  | nil =>
      show splitTopAux false [] (quoteField c) = [quoteField c]
      have := splitTopAux_field c [] []
      rw [List.append_nil] at this
      rw [this, splitTopAux]
      simp
  | cons c2 cs ih =>
      show splitTopAux false [] (quoteField c ++ ',' :: renderRow (c2 :: cs)) = _
      rw [splitTopAux_field c [] (',' :: renderRow (c2 :: cs)),
        List.append_nil, splitTopAux_comma, List.reverse_reverse]
      rw [show splitTopAux false [] (renderRow (c2 :: cs))
        = splitTop (renderRow (c2 :: cs)) from rfl, ih]
      rfl

theorem unescapeQuoted_escape (cell : List Char) :
    unescapeQuoted (escapeQuotes cell ++ ['"']) = some cell := by
  induction cell with
  | nil =>
      show unescapeQuoted ['"'] = some []
      rw [unescapeQuoted]
      simp
  | cons c cell ih =>
      by_cases hc : c = '"'
      · subst hc
        have he : escapeQuotes ('"' :: cell) = '"' :: '"' :: escapeQuotes cell := by
          rw [escapeQuotes]; simp
        rw [he, List.cons_append, List.cons_append, unescapeQuoted]
        simp [ih]
      · have he : escapeQuotes (c :: cell) = c :: escapeQuotes cell := by
          rw [escapeQuotes]; simp [hc]
        rw [he, List.cons_append, unescapeQuoted.eq_def]
        simp only [hc, if_false, ite_false]
        rw [ih]
        rfl

theorem unquoteField_quoteField (cell : List Char) :
    unquoteField (quoteField cell) = some cell := by
  by_cases hq : needsQuoting cell
  · rw [quoteField, if_pos hq]
    show unquoteField ('"' :: (escapeQuotes cell ++ ['"'])) = _
    rw [unquoteField]
    simp [unescapeQuoted_escape]
  · rw [quoteField, if_neg hq]
    rcases hc : cell with _ | ⟨c, t⟩
    · rfl
    · have : c ≠ '"' := by
        have := needsQuoting_false_chars (Bool.not_eq_true _ ▸ hq) c
          (by rw [hc]; exact List.mem_cons_self ..)
        exact this.2
      rw [unquoteField]
      simp [this]

theorem parseRow_renderRow (c : List Char) (cs : List (List Char)) :
    parseRow (renderRow (c :: cs)) = some (c :: cs) := by
  rw [parseRow, splitTop_renderRow]
  generalize c :: cs = cells
  induction cells with
  | nil => rfl
  | cons x xs ih =>
      rw [List.map_cons, List.mapM_cons, unquoteField_quoteField]
      simp only [ih]
      rfl

/-! ## Lemmas: `str.split()` on whitespace-only text -/

theorem pySplitAux_ne_nil : ∀ (l cur : List Char), cur ≠ [] →
    pySplitAux cur l ≠ []
  | [], cur => by
      intro h
      rw [pySplitAux, if_neg h]
      simp
  | c :: rest, cur => by
      intro h
      rw [pySplitAux]
      by_cases hw : c.isWhitespace
      · rw [if_pos hw, if_neg h]
        simp
      · rw [if_neg hw]
        exact pySplitAux_ne_nil rest (c :: cur) (by simp)

theorem pySplit_nil_iff : ∀ l : List Char,
    (pySplit l = [] ↔ ∀ c ∈ l, c.isWhitespace = true)
  | [] => by simp [pySplit, pySplitAux]
  | c :: rest => by
      rw [pySplit, pySplitAux]
      by_cases hw : c.isWhitespace
      · rw [if_pos hw, if_pos rfl]
        rw [show pySplitAux [] rest = pySplit rest from rfl, pySplit_nil_iff rest]
        simp [hw]
      · rw [if_neg hw]
        constructor
        · intro h
          exact absurd h (pySplitAux_ne_nil rest [c] (by simp))
        · intro h
          exact absurd (h c (List.mem_cons_self ..)) hw

/-! ## Lemmas: the consent handler runs at most once per session -/

theorem parse_page_nav_error {env : String → Except PErr Page} {fuel : Nat}
    {url : String} {e : PErr} (s : PState) (henv : env url = .error e) :
    parse_page env fuel url s = (s, [], .error e) := by
  rw [parse_page, henv]

theorem parse_page_ok_accepted {env : String → Except PErr Page} {fuel : Nat}
    {url : String} {page : Page} (henv : env url = .ok page) :
    parse_page env fuel url ⟨true⟩ = (⟨true⟩, [], page_result page fuel) := by
  rw [parse_page, henv]
  rfl

theorem parse_page_ok_fresh {env : String → Except PErr Page} {fuel : Nat}
    {url : String} {page : Page} (henv : env url = .ok page) :
    parse_page env fuel url ⟨false⟩
      = (⟨true⟩,
          Event.consentLookup
            :: (if page.consent then [Event.consentClick] else []),
          page_result page fuel) := by
  rw [parse_page, henv]
  rfl

theorem parse_page_accepted (env : String → Except PErr Page) (fuel : Nat)
    (url : String) :
    (parse_page env fuel url ⟨true⟩).1 = ⟨true⟩
      ∧ (parse_page env fuel url ⟨true⟩).2.1 = [] := by
  rcases henv : env url with e | page
  · rw [parse_page_nav_error _ henv]
    exact ⟨rfl, rfl⟩
  · rw [parse_page_ok_accepted henv]
    exact ⟨rfl, rfl⟩

theorem parse_page_accepted_eq (env : String → Except PErr Page) (fuel : Nat)
    (url : String) :
    parse_page env fuel url ⟨true⟩
      = (⟨true⟩, [], (parse_page env fuel url ⟨true⟩).2.2) := by
  obtain ⟨h1, h2⟩ := parse_page_accepted env fuel url
  exact Prod.ext h1 (Prod.ext h2 rfl)

theorem parse_page_lookup_sets_flag {env : String → Except PErr Page}
    {fuel : Nat} {url : String} {s : PState}
    (h : Event.consentLookup ∈ (parse_page env fuel url s).2.1) :
    (parse_page env fuel url s).1 = ⟨true⟩ := by
  rcases s with ⟨b⟩
  cases b
  · rcases henv : env url with e | page
    · rw [parse_page_nav_error _ henv] at h
      simp at h
    · rw [parse_page_ok_fresh henv]
  · rw [(parse_page_accepted env fuel url).2] at h
    simp at h

theorem runPages_cons (env : String → Except PErr Page) (fuel : Nat)
    (s : PState) (url : String) (urls : List String) :
    runPages env fuel s (url :: urls)
      = ((runPages env fuel (parse_page env fuel url s).1 urls).1,
         (parse_page env fuel url s).2.1
           :: (runPages env fuel (parse_page env fuel url s).1 urls).2) := by
  rw [runPages]

theorem runPages_accepted (env : String → Except PErr Page) (fuel : Nat) :
    ∀ urls : List String,
      runPages env fuel ⟨true⟩ urls = (⟨true⟩, urls.map fun _ => [])
  | [] => rfl
  | url :: urls => by
      rw [runPages_cons, (parse_page_accepted env fuel url).1,
        (parse_page_accepted env fuel url).2,
        runPages_accepted env fuel urls]
      simp

theorem runPages_later_empty (env : String → Except PErr Page) (fuel : Nat) :
    ∀ (urls : List String) (s : PState) (i j : Nat)
      (evsI evsJ : List Event), i < j →
      ((runPages env fuel s urls).2)[i]? = some evsI →
      Event.consentLookup ∈ evsI →
      ((runPages env fuel s urls).2)[j]? = some evsJ →
      evsJ = []
  | [], s, i, j, evsI, evsJ => by
      intro _ hi _ _
      rw [runPages] at hi
      simp at hi
  | url :: urls, s, i, j, evsI, evsJ => by
      intro hij hi hmem hj
      rw [runPages_cons] at hi hj
      rcases i with _ | i
      · -- the lookup happened in the first call, so the flag is set after it
        simp only [List.getElem?_cons_zero, Option.some.injEq] at hi
        subst hi
        have hflag := parse_page_lookup_sets_flag hmem
        rcases j with _ | j
        · omega
        · rw [hflag] at hj
          simp only [List.getElem?_cons_succ] at hj
          rw [runPages_accepted env fuel urls] at hj
          rw [List.getElem?_map _ _ _] at hj
          rcases h : urls[j]? with _ | u <;> rw [h] at hj
          · simp at hj
          · simpa using hj.symm
      · rcases j with _ | j
        · omega
        · simp only [List.getElem?_cons_succ] at hi hj
          exact runPages_later_empty env fuel urls _ i j evsI evsJ
            (by omega) hi hmem hj

theorem runPages_clicks (env : String → Except PErr Page) (fuel : Nat) :
    ∀ (urls : List String) (s : PState),
      (((runPages env fuel s urls).2.flatten).count Event.consentClick)
        ≤ (if s.cookies_accepted then 0 else 1)
  | [], s => by
      rw [runPages]
      simp
  | url :: urls, s => by
      rw [runPages_cons]
      rcases s with ⟨b⟩
      cases b
      · rcases henv : env url with e | page
        · -- navigation failed before the consent handler could run
          rw [parse_page_nav_error _ henv]
          have := runPages_clicks env fuel urls ⟨false⟩
          simp only [List.flatten_cons, List.count_append]
          simpa using this
        · rw [parse_page_ok_fresh henv]
          simp only [List.flatten_cons, List.count_append]
          have htail := runPages_clicks env fuel urls ⟨true⟩
          have hzero : (if ({ cookies_accepted := true } : PState).cookies_accepted
              then (0 : Nat) else 1) = 0 := rfl
          rw [hzero] at htail
          have hone : (if ({ cookies_accepted := false } : PState).cookies_accepted
              then (0 : Nat) else 1) = 1 := rfl
          rw [hone]
          have hhead : ((Event.consentLookup ::
              if page.consent then [Event.consentClick] else []).count
                Event.consentClick) ≤ 1 := by
            by_cases hc : page.consent <;> simp [hc, List.count_cons]
          omega
      · rw [(parse_page_accepted env fuel url).1,
          (parse_page_accepted env fuel url).2]
        have := runPages_clicks env fuel urls ⟨true⟩
        simp only [List.flatten_cons, List.nil_append]
        simpa using this

/-! ## Lemmas: pager termination and orchestrator abort -/

theorem handle_pagination_term :
    ∀ (N : Nat) (button : Nat → Option Bool) (fuel k : Nat), N < fuel →
      button (k + N) ≠ some true →
      ∃ L, handle_pagination button fuel k = some L ∧ L ≤ N + 1
  | 0, button, fuel, k => by
      intro hfuel hb
      rcases fuel with _ | f
      · omega
      · rw [handle_pagination]
        rcases hbk : button k with _ | b
        · exact ⟨1, rfl, le_refl 1⟩
        · cases b
          · exact ⟨1, rfl, le_refl 1⟩
          · exact absurd hbk hb
  | N + 1, button, fuel, k => by
      intro hfuel hb
      rcases fuel with _ | f
      · omega
      · rw [handle_pagination]
        rcases hbk : button k with _ | b
        · exact ⟨1, rfl, by omega⟩
        · cases b
          · exact ⟨1, rfl, by omega⟩
          · have hb' : button (k + 1 + N) ≠ some true := by
              rw [show k + 1 + N = k + (N + 1) by omega]
              exact hb
            obtain ⟨L, hL, hle⟩ :=
              handle_pagination_term N button f (k + 1) (by omega) hb'
            rw [hL]
            exact ⟨L + 1, rfl, by omega⟩

theorem run_categories_cons_error {env : String → Except PErr Page}
    {fuel : Nat} {s : PState} {t : String × String × String} {e : PErr}
    (rest : List (String × String × String))
    (h : (parse_page env fuel t.2.1 s).2.2 = .error e) :
    run_categories env fuel s (t :: rest) = ([t.2.1], .error e) := by
  rw [run_categories]
  rcases hp : parse_page env fuel t.2.1 s with ⟨s', evs, r⟩
  rw [hp] at h
  have h' : r = .error e := h
  rw [h']

theorem run_categories_cons_ok {env : String → Except PErr Page}
    {fuel : Nat} {s : PState} {t : String × String × String}
    {ps : List Product} (rest : List (String × String × String))
    (h : (parse_page env fuel t.2.1 s).2.2 = .ok ps) :
    run_categories env fuel s (t :: rest)
      = (t.2.1 :: (run_categories env fuel (parse_page env fuel t.2.1 s).1 rest).1,
         ((run_categories env fuel (parse_page env fuel t.2.1 s).1 rest).2).map
           (fun l => ps :: l)) := by
  rw [run_categories]
  rcases hp : parse_page env fuel t.2.1 s with ⟨s', evs, r⟩
  rw [hp] at h
  have h' : r = .ok ps := h
  rw [h']

theorem run_categories_abort (env : String → Except PErr Page) (fuel : Nat) :
    ∀ (pre : List (String × String × String)) (s : PState)
      (t : String × String × String) (post : List (String × String × String))
      (e : PErr),
      (∀ i (hi : i < pre.length), ∃ ps,
        (parse_page env fuel ((pre.get ⟨i, hi⟩).2.1)
          (advanceState env fuel s (pre.take i))).2.2 = .ok ps) →
      (parse_page env fuel t.2.1 (advanceState env fuel s pre)).2.2 = .error e →
      run_categories env fuel s (pre ++ t :: post)
        = (pre.map (fun q => q.2.1) ++ [t.2.1], .error e)
  | [], s, t, post, e => by
      intro _ ht
      have ht' : (parse_page env fuel t.2.1 s).2.2 = .error e := ht
      rw [List.nil_append, run_categories_cons_error post ht']
      simp
  | q :: pre', s, t, post, e => by
      intro hpre ht
      obtain ⟨ps, hps⟩ := hpre 0 (by simp)
      have hps' : (parse_page env fuel q.2.1 s).2.2 = .ok ps := hps
      rw [List.cons_append, run_categories_cons_ok (pre' ++ t :: post) hps']
      have hih := run_categories_abort env fuel pre'
        (parse_page env fuel q.2.1 s).1 t post e
        (fun i hi => hpre (i + 1) (by simpa using hi))
        ht
      rw [hih]
      simp [Except.map]

/-! ## Claim theorems -/

/-- C1: for every well-formed product container (title, description, price,
rating-marker and review-count sub-elements present, price text a one-character
currency symbol followed by a decimal numeral, review text's first token a
non-negative integer numeral), extraction yields a `Product` whose five fields
are all present and type-valid: the price is the (finite) decimal value of the
numeral, and the rating and review count are non-negative integers. -/
theorem extract_product_wellformed (item : Item) (title desc pt rt : String)
    (c : Char) (numeral tok : List Char)
    (h1 : item.titleElem = some title)
    (h2 : item.descriptionElem = some desc)
    (h3 : item.priceElem = some pt)
    (h4 : pt.data = c :: numeral)
    (h5 : isDecNumeral numeral = true)
    (h6 : item.reviewElem = some rt)
    (h7 : (pySplit rt.data).head? = some tok)
    (h8 : tok ≠ [])
    (h9 : tok.all isDigitChar = true) :
    ∃ p : Product, extract_product item = some p
      ∧ p.title = title ∧ p.description = desc
      ∧ p.price.toRat = numeralValue numeral
      ∧ 0 ≤ p.rating ∧ 0 ≤ p.num_of_reviews := by
  obtain ⟨d, hd, hdv, hdm⟩ := pyFloat_decNumeral h5
  have hprice : get_price item = some d := by
    rw [get_price, h3]
    show pyFloat (pt.data.drop 1) = some d
    rw [h4]
    exact hd
  have hreviews : get_num_of_reviews item = some ((digitsToNat tok : Int)) := by
    rw [get_num_of_reviews, h6]
    show ((pySplit rt.data).head?.bind pyInt) = _
    rw [h7]
    show pyInt tok = _
    exact pyInt_digits h8 h9
  refine ⟨⟨title, desc, d, get_rating item, (digitsToNat tok : Int)⟩, ?_,
    rfl, rfl, hdv, ?_, ?_⟩
  · rw [extract_product, get_title, get_description, h1, h2]
    simp [hprice, hreviews]
  · show (0 : Int) ≤ (item.ratingElems.length : Int)
    positivity
  · positivity

theorem extract_product_wellformed_witness :
    ∃ p : Product,
      extract_product ⟨some "Asus X", some "nice laptop", some "$299.99",
        [(), (), (), ()], some "14 reviews"⟩ = some p
      ∧ p.title = "Asus X" ∧ p.description = "nice laptop"
      ∧ p.price.toRat = numeralValue "299.99".data
      ∧ 0 ≤ p.rating ∧ 0 ≤ p.num_of_reviews :=
  extract_product_wellformed _ "Asus X" "nice laptop" "$299.99" "14 reviews"
    '$' "299.99".data "14".data rfl rfl rfl rfl (by decide) rfl (by decide)
    (by decide) (by decide)

/-- C6: for a product container whose price element's text is a one-character
currency prefix followed by a decimal numeral, the extracted price is exactly
the number the text with its first character removed denotes. -/
theorem get_price_strips_currency (item : Item) (pt : String) (c : Char)
    (numeral : List Char)
    (h1 : item.priceElem = some pt) (h2 : pt.data = c :: numeral)
    (h3 : isDecNumeral numeral = true) :
    ∃ d, get_price item = some d ∧ d.toRat = numeralValue numeral := by
  obtain ⟨d, hd, hv, -⟩ := pyFloat_decNumeral h3
  refine ⟨d, ?_, hv⟩
  rw [get_price, h1]
  show pyFloat (pt.data.drop 1) = some d
  rw [h2]
  exact hd

theorem get_price_strips_currency_witness :
    ∃ d, get_price ⟨none, none, some "$299.00", [], none⟩ = some d
      ∧ d.toRat = numeralValue "299.00".data :=
  get_price_strips_currency _ "$299.00" '$' "299.00".data rfl rfl (by decide)

/-- C7: when the review-count element's text has a first whitespace-delimited
token that is an integer numeral, the extracted review count is exactly the
integer that token denotes, and the extracted rating is the number of
rating-marker sub-elements of the container. -/
theorem get_reviews_and_rating (item : Item) (rt : String) (tok : List Char)
    (h1 : item.reviewElem = some rt)
    (h2 : (pySplit rt.data).head? = some tok)
    (h3 : intNumeral tok = true) :
    get_num_of_reviews item = some (intNumeralValue tok)
      ∧ get_rating item = (item.ratingElems.length : Int) := by
  refine ⟨?_, rfl⟩
  rw [get_num_of_reviews, h1]
  show ((pySplit rt.data).head?.bind pyInt) = _
  rw [h2]
  show pyInt tok = some (intNumeralValue tok)
  rcases tok with _ | ⟨c, rest⟩
  · exact absurd h3 (by decide)
  · by_cases hc : c = '-'
    · subst hc
      rw [intNumeral] at h3
      rw [if_pos rfl] at h3
      rw [pyInt, if_pos rfl, intNumeralValue, if_pos rfl]
      simp only [Bool.decide_and, Bool.and_eq_true, decide_eq_true_eq] at h3
      simp [h3.1, h3.2]
    · rw [intNumeral, if_neg hc] at h3
      have hcd : isDigitChar c = true := by
        rw [List.all_cons, Bool.and_eq_true] at h3
        exact h3.1
      obtain ⟨-, hplus, -⟩ := isDigitChar_ne hcd
      rw [pyInt, if_neg hc, if_neg hplus, if_pos h3, intNumeralValue,
        if_neg hc]

theorem get_reviews_and_rating_witness :
    get_num_of_reviews ⟨none, none, none, [(), ()], some "14 reviews"⟩
        = some (intNumeralValue "14".data)
      ∧ get_rating ⟨none, none, none, [(), ()], some "14 reviews"⟩
        = (([(), ()] : List Unit).length : Int) :=
  get_reviews_and_rating _ "14 reviews" "14".data rfl (by decide) (by decide)

/-- C10: when the review-count element is present but its text is empty or
whitespace-only, the first-token lookup fails (`none`, where the source raises
an `IndexError` on `split()[0]`) — and it fails exactly in this case — so the
extracted review count is `none` rather than any default value. -/
theorem get_num_of_reviews_whitespace (item : Item) (rt : String)
    (h1 : item.reviewElem = some rt) :
    ((pySplit rt.data).head? = none ↔ ∀ c ∈ rt.data, c.isWhitespace = true)
      ∧ ((∀ c ∈ rt.data, c.isWhitespace = true) →
          get_num_of_reviews item = none) := by
  have hiff := pySplit_nil_iff rt.data
  constructor
  · rw [List.head?_eq_none_iff]
    exact hiff
  · intro h
    rw [get_num_of_reviews, h1]
    show ((pySplit rt.data).head?.bind pyInt) = none
    rw [List.head?_eq_none_iff.mpr (hiff.mpr h)]
    rfl

theorem get_num_of_reviews_whitespace_witness :
    (((pySplit ("  " : String).data).head? = none
        ↔ ∀ c ∈ ("  " : String).data, c.isWhitespace = true)
      ∧ ((∀ c ∈ ("  " : String).data, c.isWhitespace = true) →
          get_num_of_reviews ⟨none, none, none, [], some "  "⟩ = none))
    ∧ get_num_of_reviews ⟨none, none, none, [], some "  "⟩ = none :=
  ⟨get_num_of_reviews_whitespace _ "  " rfl,
    (get_num_of_reviews_whitespace _ "  " rfl).2 (by decide)⟩

/-- C2: the serializer writes exactly one data row per input record, in input
order (record `i` is data row `i`), and each written row parses back — the CSV
reader recovers the exact cells, and the numeric cells parse back to exactly
the record's field values. -/
theorem create_csv_row_per_record (products : List Product) :
    (csvRows products).length = products.length + 1
      ∧ ∀ (i : Nat) (p : Product), products[i]? = some p →
          ((csvRows products)[i + 1]? = some (renderRow (productCells p))
            ∧ parseRow (renderRow (productCells p)) = some (productCells p)
            ∧ (pyFloat (decStr p.price)).map Dec.toRat = some p.price.toRat
            ∧ pyInt (intStr p.rating) = some p.rating
            ∧ pyInt (intStr p.num_of_reviews) = some p.num_of_reviews) := by
  constructor
  · simp [csvRows]
  · intro i p hp
    refine ⟨?_, ?_, ?_, pyInt_intStr _, pyInt_intStr _⟩
    · rw [csvRows, List.getElem?_cons_succ, List.getElem?_map _ _ _, hp]
      rfl
    · exact parseRow_renderRow _ _
    · obtain ⟨d', hp', hv⟩ := pyFloat_decStr p.price
      rw [hp']
      show some d'.toRat = some p.price.toRat
      rw [hv]

theorem create_csv_row_per_record_witness :
    (csvRows [⟨"Asus X", "a, \"nice\" one", ⟨29900, 2⟩, 4, 12⟩]).length
        = [(⟨"Asus X", "a, \"nice\" one", ⟨29900, 2⟩, 4, 12⟩ : Product)].length + 1
      ∧ ((csvRows [⟨"Asus X", "a, \"nice\" one", ⟨29900, 2⟩, 4, 12⟩])[0 + 1]?
          = some (renderRow (productCells ⟨"Asus X", "a, \"nice\" one", ⟨29900, 2⟩, 4, 12⟩))
        ∧ parseRow (renderRow (productCells ⟨"Asus X", "a, \"nice\" one", ⟨29900, 2⟩, 4, 12⟩))
          = some (productCells ⟨"Asus X", "a, \"nice\" one", ⟨29900, 2⟩, 4, 12⟩)
        ∧ (pyFloat (decStr (⟨29900, 2⟩ : Dec))).map Dec.toRat
          = some (Dec.toRat ⟨29900, 2⟩)
        ∧ pyInt (intStr 4) = some 4
        ∧ pyInt (intStr 12) = some 12) :=
  ⟨(create_csv_row_per_record _).1,
    (create_csv_row_per_record
      [⟨"Asus X", "a, \"nice\" one", ⟨29900, 2⟩, 4, 12⟩]).2 0 _ rfl⟩

/-- C3: on an empty record list the serializer writes exactly the single
header row, and for every record list the first row written is the fixed
header `title,description,price,rating,num_of_reviews`. -/
theorem create_csv_file_header :
    create_csv_file [] = "title,description,price,rating,num_of_reviews\r\n"
      ∧ ∀ products : List Product,
          (csvRows products).head? = some (renderRow headerCells)
          ∧ renderRow headerCells
            = "title,description,price,rating,num_of_reviews".data := by
  refine ⟨by decide, fun products => ⟨rfl, by decide⟩⟩

/-- C4: across any sequence of `parse_page` calls in one session (starting
with `cookies_accepted = False`), the consent click fires at most once in
total, and once some call has performed the consent lookup, every later call
performs no consent action at all. -/
theorem consent_click_at_most_once (env : String → Except PErr Page)
    (fuel : Nat) (urls : List String) :
    (((runPages env fuel ⟨false⟩ urls).2.flatten).count Event.consentClick ≤ 1)
      ∧ ∀ (i j : Nat) (evsI evsJ : List Event), i < j →
          ((runPages env fuel ⟨false⟩ urls).2)[i]? = some evsI →
          Event.consentLookup ∈ evsI →
          ((runPages env fuel ⟨false⟩ urls).2)[j]? = some evsJ →
          evsJ = [] := by
  refine ⟨?_, fun i j evsI evsJ hij hi hm hj =>
    runPages_later_empty env fuel urls ⟨false⟩ i j evsI evsJ hij hi hm hj⟩
  have h := runPages_clicks env fuel urls ⟨false⟩
  have hone : (if ({ cookies_accepted := false } : PState).cookies_accepted
      then (0 : Nat) else 1) = 1 := rfl
  rw [hone] at h
  exact h

theorem consent_click_at_most_once_witness :
    (((runPages (fun _ => Except.ok ⟨true, fun _ => some false, []⟩) 1 ⟨false⟩
        ["a", "b"]).2.flatten).count Event.consentClick ≤ 1)
      ∧ ([] : List Event) = [] :=
  ⟨(consent_click_at_most_once (fun _ => Except.ok ⟨true, fun _ => some false, []⟩)
      1 ["a", "b"]).1,
    (consent_click_at_most_once (fun _ => Except.ok ⟨true, fun _ => some false, []⟩)
      1 ["a", "b"]).2 0 1 [Event.consentLookup, Event.consentClick] []
      (by decide) (by decide) (by decide) (by decide)⟩

/-- C5: when the "load more" control is no longer displayed (or gone) after
`N` triggers, the pager terminates within `N + 1` lookups; each iteration
clicks the control exactly when it is found and displayed, and the loop exits
as soon as the control is found-but-hidden or not found. -/
theorem pager_terminates (button : Nat → Option Bool) (N : Nat)
    (h : button N ≠ some true) :
    (∃ L, handle_pagination button (N + 1) 0 = some L ∧ L ≤ N + 1)
      ∧ (∀ fuel k, button k = some true →
          handle_pagination button (fuel + 1) k
            = (handle_pagination button fuel (k + 1)).map (· + 1))
      ∧ (∀ fuel k, button k = some false →
          handle_pagination button (fuel + 1) k = some 1)
      ∧ (∀ fuel k, button k = none →
          handle_pagination button (fuel + 1) k = some 1) := by
  refine ⟨?_, ?_, ?_, ?_⟩
  · exact handle_pagination_term N button (N + 1) 0 (by omega)
      (by simpa using h)
  · intro fuel k hb
    rw [handle_pagination, hb]
  · intro fuel k hb
    rw [handle_pagination, hb]
  · intro fuel k hb
    rw [handle_pagination, hb]

theorem pager_terminates_witness :
    ∃ L, handle_pagination
        (fun k => if k < 2 then some true else some false) (2 + 1) 0 = some L
      ∧ L ≤ 2 + 1 :=
  (pager_terminates (fun k => if k < 2 then some true else some false) 2
    (by decide)).1

/-- C9: a single `check_accept_cookies` call sets the `cookies_accepted` flag
whether or not the consent element was present, so in a session whose first
page loads, no `parse_page` call after the first performs the consent lookup,
even if a consent overlay is present on a later page. -/
theorem consent_flag_always_set (env : String → Except PErr Page) (fuel : Nat)
    (url : String) (urls : List String) (page : Page)
    (henv : env url = .ok page) :
    (∀ (present : Bool) (s : PState),
        (check_accept_cookies present s).1.cookies_accepted = true)
      ∧ ∀ (j : Nat) (evsJ : List Event),
          ((runPages env fuel ⟨false⟩ (url :: urls)).2)[j + 1]? = some evsJ →
          Event.consentLookup ∉ evsJ := by
  refine ⟨fun present s => rfl, fun j evsJ hj => ?_⟩
  rw [runPages_cons, parse_page_ok_fresh henv] at hj
  rw [show ((⟨true⟩, Event.consentLookup ::
      (if page.consent then [Event.consentClick] else []),
      page_result page fuel) :
        PState × List Event × Except PErr (List Product)).1 = ⟨true⟩ from rfl,
    runPages_accepted env fuel urls] at hj
  simp only [List.getElem?_cons_succ] at hj
  rw [List.getElem?_map _ _ _] at hj
  rcases h : urls[j]? with _ | u <;> rw [h] at hj
  · simp at hj
  · have : evsJ = [] := by simpa using hj.symm
    rw [this]
    simp

theorem consent_flag_always_set_witness :
    (∀ (present : Bool) (s : PState),
        (check_accept_cookies present s).1.cookies_accepted = true)
      ∧ Event.consentLookup ∉ ([] : List Event) :=
  ⟨(consent_flag_always_set (fun _ => Except.ok ⟨true, fun _ => none, []⟩)
      1 "a" ["b"] ⟨true, fun _ => none, []⟩ rfl).1,
    (consent_flag_always_set (fun _ => Except.ok ⟨true, fun _ => none, []⟩)
      1 "a" ["b"] ⟨true, fun _ => none, []⟩ rfl).2 0 [] (by decide)⟩

/-- C8: the orchestrator iterates the six fixed (label, URL, filename) triples
in order; if the first failing triple raises an error, the whole run returns
that error, having navigated exactly to the URLs up to and including the
failing one — no later triple is processed. -/
theorem get_all_products_abort (env : String → Except PErr Page) (fuel : Nat)
    (pre : List (String × String × String)) (t : String × String × String)
    (post : List (String × String × String)) (e : PErr)
    (hcat : categories = pre ++ t :: post)
    (hpre : ∀ i (hi : i < pre.length), ∃ ps,
      (parse_page env fuel ((pre.get ⟨i, hi⟩).2.1)
        (advanceState env fuel ⟨false⟩ (pre.take i))).2.2 = .ok ps)
    (ht : (parse_page env fuel t.2.1 (advanceState env fuel ⟨false⟩ pre)).2.2
      = .error e) :
    get_all_products env fuel
      = (pre.map (fun q => q.2.1) ++ [t.2.1], .error e) := by
  rw [get_all_products, hcat]
  exact run_categories_abort env fuel pre ⟨false⟩ t post e hpre ht

theorem get_all_products_abort_witness :
    get_all_products (fun _ => Except.error PErr.nav) 1
      = ([HOME_URL], Except.error PErr.nav) :=
  get_all_products_abort (fun _ => Except.error PErr.nav) 1 []
    ("Home products", HOME_URL, "home.csv")
    [("Computer products", COMPUTERS_URL, "computers.csv"),
     ("Laptop products", LAPTOPS_URL, "laptops.csv"),
     ("Tablet products", TABLETS_URL, "tablets.csv"),
     ("Phone products", PHONES_URL, "phones.csv"),
     ("Touch products", TOUCH_URL, "touch.csv")]
    PErr.nav rfl (fun i hi => absurd hi (Nat.not_lt_zero i)) rfl

end Scrape
